import Mathlib

/-!
# Shallow embedding of the RustHound security-descriptor decoder

This file embeds `src/enums/secdesc.rs` — the binary decoder for Windows
security descriptors (SIDs, ACEs, ACLs) — into Lean and proves the
specification's claims about it.

Modelling conventions:
* A byte buffer (`&[u8]`) is a `List Nat` of byte values.
* A nom `IResult<&[u8], T>` is a `PResult T`: on success it carries the
  remaining input and the value; nom's recoverable failures
  (`Err::Error`/`Err::Incomplete`, which in this code arise only from
  insufficient input) are `.truncated`; a Rust panic (an explicit `panic!`,
  an `.unwrap()` on `None`, or a debug-build integer-underflow abort) is
  `.panic`.
* Machine integers are `Nat`; little-endian multi-byte reads combine byte
  values positionally.
-/

namespace SecDesc

/-- Outcome of running a nom-style parser from `secdesc.rs`:
success with remaining input and value, a recoverable nom failure caused by
insufficient input (`Err::Error` / `Err::Incomplete`), or a Rust panic. -/
inductive PResult (α : Type) where
  | ok : List Nat → α → PResult α
  | truncated : PResult α
  | panic : PResult α
deriving DecidableEq, Repr

/-- Sequencing of parser outcomes: mirrors Rust's `?` operator on `IResult`
(failures propagate) together with panic propagation (a panic aborts). -/
def PResult.bind {α β : Type} : PResult α → (List Nat → α → PResult β) → PResult β
  | .ok i a, f => f i a
  | .truncated, _ => .truncated
  | .panic, _ => .panic

/-- nom's little-endian unsigned readers (`le_u8`, `le_u16`, `le_u32`,
`le_u128` are `leN 1`, `leN 2`, `leN 4`, `leN 16`): read `n` bytes and
combine them little-endian; fail when fewer than `n` bytes remain. -/
def leN : Nat → List Nat → PResult Nat
  | 0, i => .ok i 0
  | _ + 1, [] => .truncated
  | n + 1, b :: rest =>
      match leN n rest with
      | .ok r v => .ok r (b + 256 * v)
      | .truncated => .truncated
      | .panic => .panic

/-- nom's streaming `take(n)`: split off exactly `n` bytes, failing
(`Err::Incomplete`) when fewer remain. -/
def ptake (n : Nat) (i : List Nat) : PResult (List Nat) :=
  if n ≤ i.length then .ok (List.drop n i) (List.take n i) else .truncated

/-- nom's `cond(b, f)`: run `f` and wrap in `some` when `b` holds, otherwise
consume nothing and yield `none`. -/
def pcond {α : Type} (b : Bool) (p : List Nat → PResult α) (i : List Nat) :
    PResult (Option α) :=
  if b then (p i).bind fun i v => .ok i (some v)
  else .ok i none

/-- nom's `count(f, n)`: run `f` exactly `n` times in sequence, collecting
the results; any failure of a run fails the whole combinator. -/
def pcount {α : Type} (p : List Nat → PResult α) : Nat → List Nat → PResult (List α)
  | 0, i => .ok i []
  | n + 1, i =>
      (p i).bind fun i v =>
        (pcount p n i).bind fun i vs =>
          .ok i (v :: vs)

/-- `LdapSidIdentifiedAuthority` (secdesc.rs): the 6-byte SID authority. -/
structure LdapSidIdentifiedAuthority where
  value : List Nat
deriving DecidableEq, Repr

/-- `LdapSidIdentifiedAuthority::parse`: `take(6)` then wrap. -/
def LdapSidIdentifiedAuthority.parse (i : List Nat) :
    PResult LdapSidIdentifiedAuthority :=
  (ptake 6 i).bind fun i value => .ok i ⟨value⟩

/-- `LdapSid` (secdesc.rs): revision, sub-authority count, 6-byte authority,
and the sub-authority list. -/
structure LdapSid where
  revision : Nat
  sub_authority_count : Nat
  identifier_authority : LdapSidIdentifiedAuthority
  sub_authority : List Nat
deriving DecidableEq, Repr

/-- `LdapSid::parse`: `le_u8` revision, `le_u8` count, the 6-byte authority,
then `count(le_u32, count)` sub-authorities. -/
def LdapSid.parse (i : List Nat) : PResult LdapSid :=
  (leN 1 i).bind fun i revision =>
  (leN 1 i).bind fun i cnt =>
  (LdapSidIdentifiedAuthority.parse i).bind fun i auth =>
  (pcount (leN 4) cnt i).bind fun i subs =>
  .ok i ⟨revision, cnt, auth, subs⟩

/-- Modelled from the spec: the ACE type discriminants come from
`src/enums/constants.rs`, which is not among the provided sources; the
spec (§4.2) and the MS-DTYP layout they implement fix them as
ACCESS_ALLOWED=0x00, ACCESS_DENIED=0x01, ACCESS_ALLOWED_OBJECT=0x05,
ACCESS_DENIED_OBJECT=0x06 (the repository's own tests exercise 0x00 and
0x05 with the corresponding payload shapes). -/
def ACCESS_ALLOWED_ACE_TYPE : Nat := 0x00

/-- Modelled from the spec: see `ACCESS_ALLOWED_ACE_TYPE`. -/
def ACCESS_DENIED_ACE_TYPE : Nat := 0x01

/-- Modelled from the spec: see `ACCESS_ALLOWED_ACE_TYPE`. -/
def ACCESS_ALLOWED_OBJECT_ACE_TYPE : Nat := 0x05

/-- Modelled from the spec: see `ACCESS_ALLOWED_ACE_TYPE`. -/
def ACCESS_DENIED_OBJECT_ACE_TYPE : Nat := 0x06

/-- `ObjectAceFlags` (secdesc.rs): a `bitflags` u32 with
`ACE_OBJECT_PRESENT = 0x1` and `ACE_INHERITED_OBJECT_PRESENT = 0x2`. -/
structure ObjectAceFlags where
  bits : Nat
deriving DecidableEq, Repr

/-- `bitflags`' generated `ObjectAceFlags::from_bits`: `some` exactly when no
bit outside the two defined flags (mask 0x3) is set, i.e. when `v < 4`. -/
def ObjectAceFlags.from_bits (v : Nat) : Option ObjectAceFlags :=
  if v < 4 then some ⟨v⟩ else none

/-- `flags.contains(ObjectAceFlags::ACE_OBJECT_PRESENT)`: bit 0 is set. -/
def ObjectAceFlags.objectPresent (f : ObjectAceFlags) : Bool :=
  f.bits.testBit 0

/-- `flags.contains(ObjectAceFlags::ACE_INHERITED_OBJECT_PRESENT)`:
bit 1 is set. -/
def ObjectAceFlags.inheritedObjectPresent (f : ObjectAceFlags) : Bool :=
  f.bits.testBit 1

/-- `ObjectAceFlags::parse`: `le_u32`, then
`ObjectAceFlags::from_bits(flags).unwrap()` — the `unwrap` panics when
`from_bits` returns `None`, i.e. when any undefined bit is set. -/
def ObjectAceFlags.parse (i : List Nat) : PResult ObjectAceFlags :=
  (leN 4 i).bind fun i v =>
    match ObjectAceFlags.from_bits v with
    | some f => .ok i f
    | none => .panic

/-- `AccessAllowedAce` (secdesc.rs): mask then SID. -/
structure AccessAllowedAce where
  mask : Nat
  sid : LdapSid
deriving DecidableEq, Repr

/-- `AccessAllowedAce::parse`: `le_u32` mask, then `LdapSid::parse`. -/
def AccessAllowedAce.parse (i : List Nat) : PResult AccessAllowedAce :=
  (leN 4 i).bind fun i mask =>
  (LdapSid.parse i).bind fun i sid =>
  .ok i ⟨mask, sid⟩

/-- `AccessAllowedObjectAce` (secdesc.rs): mask, flags, two optional GUIDs,
then SID. -/
structure AccessAllowedObjectAce where
  mask : Nat
  flags : ObjectAceFlags
  object_type : Option Nat
  inherited_object_type : Option Nat
  sid : LdapSid
deriving DecidableEq, Repr

/-- `AccessAllowedObjectAce::parse`: `le_u32` mask, `ObjectAceFlags::parse`,
`cond(flags.contains(ACE_OBJECT_PRESENT), le_u128)`,
`cond(flags.contains(ACE_INHERITED_OBJECT_PRESENT), le_u128)`, then
`LdapSid::parse`. -/
def AccessAllowedObjectAce.parse (i : List Nat) : PResult AccessAllowedObjectAce :=
  (leN 4 i).bind fun i mask =>
  (ObjectAceFlags.parse i).bind fun i flags =>
  (pcond flags.objectPresent (leN 16) i).bind fun i object_type =>
  (pcond flags.inheritedObjectPresent (leN 16) i).bind fun i inherited_object_type =>
  (LdapSid.parse i).bind fun i sid =>
  .ok i ⟨mask, flags, object_type, inherited_object_type, sid⟩

/-- `AceFormat` (secdesc.rs): the ACE payload variants. `Empty` is a
constructible default that `AceFormat::parse` never produces. -/
inductive AceFormat where
  | AceAllowed : AccessAllowedAce → AceFormat
  | AceObjectAllowed : AccessAllowedObjectAce → AceFormat
  | Empty : AceFormat
deriving DecidableEq, Repr

/-- `AceFormat::parse`: dispatch on `ace_type`; note that the source returns
the *original* input `i` as the remaining input (the sub-parser's leftover is
discarded via `.1`), and the final `else` arm is
`panic!("Error during ACE data parsing to AceFormat!")`. -/
def AceFormat.parse (i : List Nat) (ace_type : Nat) : PResult AceFormat :=
  if ace_type = ACCESS_ALLOWED_ACE_TYPE then
    (AccessAllowedAce.parse i).bind fun _ v => .ok i (AceFormat.AceAllowed v)
  else if ace_type = ACCESS_DENIED_ACE_TYPE then
    (AccessAllowedAce.parse i).bind fun _ v => .ok i (AceFormat.AceAllowed v)
  else if ace_type = ACCESS_ALLOWED_OBJECT_ACE_TYPE then
    (AccessAllowedObjectAce.parse i).bind fun _ v => .ok i (AceFormat.AceObjectAllowed v)
  else if ace_type = ACCESS_DENIED_OBJECT_ACE_TYPE then
    (AccessAllowedObjectAce.parse i).bind fun _ v => .ok i (AceFormat.AceObjectAllowed v)
  else
    .panic

/-- `AceFormat::get_mask`: the mask of either populated variant, `None` for
`Empty`. -/
def AceFormat.get_mask : AceFormat → Option Nat
  | .AceAllowed ace => some ace.mask
  | .AceObjectAllowed ace => some ace.mask
  | .Empty => none

/-- `AceFormat::get_sid`: the SID of either populated variant, `None` for
`Empty`. -/
def AceFormat.get_sid : AceFormat → Option LdapSid
  | .AceAllowed ace => some ace.sid
  | .AceObjectAllowed ace => some ace.sid
  | .Empty => none

/-- `Ace` (secdesc.rs): common header plus formatted payload. -/
structure Ace where
  ace_type : Nat
  ace_flags : Nat
  ace_size : Nat
  data : AceFormat
deriving DecidableEq, Repr

/-- `Ace::parse`: `le_u8` type, `le_u8` flags, `le_u16` size, then
`take(ace_size as usize - 4)` for the body and `AceFormat::parse` on that
body alone (the body parser's leftover `_j` is discarded; the remaining
input is what follows the taken body). When `ace_size < 4` the `usize`
subtraction underflows, which aborts with a panic under Rust's
overflow-checked (debug/test) builds — the build the repository's own tests
run under. -/
def Ace.parse (i : List Nat) : PResult Ace :=
  (leN 1 i).bind fun i ace_type =>
  (leN 1 i).bind fun i ace_flags =>
  (leN 2 i).bind fun i ace_size =>
  if ace_size < 4 then .panic
  else
    (ptake (ace_size - 4) i).bind fun i body =>
      (AceFormat.parse body ace_type).bind fun _ data =>
        .ok i ⟨ace_type, ace_flags, ace_size, data⟩

/-- `Acl` (secdesc.rs): ACL header plus the ACE list. -/
structure Acl where
  acl_revision : Nat
  sbz1 : Nat
  acl_size : Nat
  ace_count : Nat
  sbz2 : Nat
  data : List Ace
deriving DecidableEq, Repr

/-- `Acl::parse`: `le_u8` revision, `le_u8` sbz1, `le_u16` size, `le_u16`
count, `le_u16` sbz2, then `count(Ace::parse, ace_count)`. -/
def Acl.parse (i : List Nat) : PResult Acl :=
  (leN 1 i).bind fun i acl_revision =>
  (leN 1 i).bind fun i sbz1 =>
  (leN 2 i).bind fun i acl_size =>
  (leN 2 i).bind fun i ace_count =>
  (leN 2 i).bind fun i sbz2 =>
  (pcount Ace.parse ace_count i).bind fun i data =>
  .ok i ⟨acl_revision, sbz1, acl_size, ace_count, sbz2, data⟩

/-! ## Basic lemmas about the parser combinators -/

theorem PResult.bind_ok {α β : Type} {x : PResult α} {f : List Nat → α → PResult β}
    {r : List Nat} {v : β} (h : x.bind f = .ok r v) :
    ∃ i a, x = .ok i a ∧ f i a = .ok r v := by
  cases x with
  | ok i a => exact ⟨i, a, rfl, h⟩
  | truncated => simp [PResult.bind] at h
  | panic => simp [PResult.bind] at h

theorem leN_ne_panic (n : Nat) (i : List Nat) : leN n i ≠ .panic := by
  induction n generalizing i with
  | zero => simp [leN]
  | succ n ih =>
    cases i with
    | nil => simp [leN]
    | cons b rest =>
      simp only [leN]
      cases h : leN n rest with
      | ok r v => simp
      | truncated => simp
      | panic => exact absurd h (ih rest)

theorem leN_truncated_of_lt {n : Nat} {i : List Nat} (h : i.length < n) :
    leN n i = .truncated := by
  induction n generalizing i with
  | zero => omega
  | succ n ih =>
    cases i with
    | nil => simp [leN]
    | cons b rest =>
      simp only [leN]
      rw [ih (by simpa using h)]

theorem leN_ok_inv {n : Nat} {i r : List Nat} {v : Nat}
    (h : leN n i = .ok r v) : n ≤ i.length ∧ r = i.drop n := by
  induction n generalizing i r v with
  | zero => simp [leN] at h; simp [h.1]
  | succ n ih =>
    cases i with
    | nil => simp [leN] at h
    | cons b rest =>
      simp only [leN] at h
      cases hr : leN n rest with
      | ok r' v' =>
        rw [hr] at h
        obtain ⟨h1, h2⟩ := ih hr
        simp only [PResult.ok.injEq] at h
        refine ⟨by simpa using Nat.succ_le_succ h1, ?_⟩
        simp [← h.1, h2]
      | truncated => rw [hr] at h; exact absurd h (by simp)
      | panic => exact absurd hr (leN_ne_panic n rest)

theorem leN_ok_of_le {n : Nat} {i : List Nat} (h : n ≤ i.length) :
    ∃ v, leN n i = .ok (i.drop n) v := by
  induction n generalizing i with
  | zero => exact ⟨0, by simp [leN]⟩
  | succ n ih =>
    cases i with
    | nil => simp at h
    | cons b rest =>
      obtain ⟨v, hv⟩ := ih (i := rest) (by simpa using h)
      exact ⟨b + 256 * v, by simp [leN, hv]⟩

theorem leN_stable {n : Nat} {i r : List Nat} {v : Nat}
    (h : leN n i = .ok r v) (t : List Nat) :
    leN n (i.take n ++ t) = .ok t v := by
  induction n generalizing i r v t with
  | zero =>
    simp only [leN, PResult.ok.injEq] at h
    obtain ⟨h1, h2⟩ := h
    subst h2
    simp [leN]
  | succ n ih =>
    cases i with
    | nil => simp [leN] at h
    | cons b rest =>
      simp only [leN] at h
      cases hr : leN n rest with
      | ok r' v' =>
        rw [hr] at h
        simp only [PResult.ok.injEq] at h
        simp only [List.take_succ_cons, List.cons_append, leN, List.append_eq]
        rw [ih hr t]
        simp [h.2]
      | truncated => rw [hr] at h; exact absurd h (by simp)
      | panic => exact absurd hr (leN_ne_panic n rest)

theorem ptake_ne_panic (n : Nat) (i : List Nat) : ptake n i ≠ .panic := by
  unfold ptake; split <;> simp

theorem ptake_ok_inv {n : Nat} {i r b : List Nat}
    (h : ptake n i = .ok r b) :
    n ≤ i.length ∧ r = i.drop n ∧ b = i.take n := by
  unfold ptake at h
  split at h
  · simp only [PResult.ok.injEq] at h
    exact ⟨by assumption, h.1.symm, h.2.symm⟩
  · exact absurd h (by simp)

/-! ## Well-behaved parsers: consumption count, prefix stability, and
truncation on every strict prefix of the consumed bytes -/

/-- A parser is *good* when every success consumes a definite number of
bytes `c`, depends only on those `c` bytes (running it on them followed by
any continuation succeeds with that continuation as the leftover), and
fails with a truncation error on every strict prefix of the consumed
bytes. -/
def GoodParser {α : Type} (p : List Nat → PResult α) : Prop :=
  ∀ i r v, p i = .ok r v →
    ∃ c, c ≤ i.length ∧ r = i.drop c ∧
      (∀ t, p (i.take c ++ t) = .ok t v) ∧
      (∀ k, k < c → p (i.take k) = .truncated)

theorem goodParser_pure {α : Type} (g : α) : GoodParser (fun i => .ok i g) := by
  intro i r v h
  simp only [PResult.ok.injEq] at h
  exact ⟨0, Nat.zero_le _, by simp [← h.1], fun t => by simp [h.2], fun k hk => by omega⟩

theorem goodParser_leN (n : Nat) : GoodParser (leN n) := by
  intro i r v h
  obtain ⟨h1, h2⟩ := leN_ok_inv h
  refine ⟨n, h1, h2, leN_stable h, fun k hk => ?_⟩
  exact leN_truncated_of_lt (by simp; omega)

theorem goodParser_ptake (n : Nat) : GoodParser (ptake n) := by
  intro i r v h
  obtain ⟨h1, h2, h3⟩ := ptake_ok_inv h
  refine ⟨n, h1, h2, fun t => ?_, fun k hk => ?_⟩
  · have hlen : (i.take n).length = n := by simp; omega
    unfold ptake
    rw [if_pos (by simp [hlen])]
    rw [List.drop_append_of_le_length (by omega), List.take_append_of_le_length (by omega)]
    simp [hlen, h3, List.drop_of_length_le (le_of_eq hlen)]
  · unfold ptake
    rw [if_neg (by simp; omega)]

theorem goodParser_bind {α β : Type} {p : List Nat → PResult α}
    {f : List Nat → α → PResult β}
    (hp : GoodParser p) (hf : ∀ a, GoodParser (fun i => f i a)) :
    GoodParser (fun i => (p i).bind f) := by
  intro i r v h
  obtain ⟨i1, a, hpi, hfa⟩ := PResult.bind_ok h
  obtain ⟨c1, hc1, hr1, hs1, ht1⟩ := hp i i1 a hpi
  obtain ⟨c2, hc2, hr2, hs2, ht2⟩ := hf a i1 r v hfa
  subst hr1
  refine ⟨c1 + c2, ?_, ?_, ?_, ?_⟩
  · simp at hc2; omega
  · rw [hr2, List.drop_drop]
  · intro t
    rw [List.take_add, List.append_assoc]
    simp only [hs1 ((i.drop c1).take c2 ++ t), PResult.bind]
    exact hs2 t
  · intro k hk
    by_cases hkc : k < c1
    · simp [ht1 k hkc, PResult.bind]
    · push_neg at hkc
      have : i.take k = i.take c1 ++ (i.drop c1).take (k - c1) := by
        rw [← List.take_add]
        congr 1
        omega
      rw [this]
      simp only [hs1 ((i.drop c1).take (k - c1)), PResult.bind]
      exact ht2 (k - c1) (by omega)

theorem goodParser_const_fail {α : Type} {x : PResult α}
    (hx : ∀ r v, x ≠ .ok r v) : GoodParser (fun _ => x) := by
  intro i r v h
  exact absurd h (hx r v)

theorem goodParser_if {α : Type} {c : Prop} [Decidable c]
    {p q : List Nat → PResult α}
    (hp : GoodParser p) (hq : GoodParser q) :
    GoodParser (fun i => if c then p i else q i) := by
  by_cases hc : c <;> simp [hc, hp, hq]

theorem goodParser_pcond {α : Type} {b : Bool} {p : List Nat → PResult α}
    (hp : GoodParser p) : GoodParser (pcond b p) := by
  unfold pcond
  cases b with
  | false => simpa using goodParser_pure (α := Option α) none
  | true =>
    simp only [if_pos]
    exact goodParser_bind hp (fun a => goodParser_pure (some a))

theorem goodParser_pcount {α : Type} {p : List Nat → PResult α}
    (hp : GoodParser p) : ∀ n, GoodParser (pcount p n) := by
  intro n
  induction n with
  | zero => simpa [pcount] using goodParser_pure (α := List α) []
  | succ n ih =>
    show GoodParser fun i => (p i).bind fun i v => (pcount p n i).bind fun i vs => .ok i (v :: vs)
    exact goodParser_bind hp fun a =>
      goodParser_bind ih fun l => goodParser_pure (a :: l)

/-! ## Never-panic and inversion lemmas -/

theorem PResult.bind_ne_panic {α β : Type} {x : PResult α}
    {f : List Nat → α → PResult β}
    (hx : x ≠ .panic) (hf : ∀ i a, f i a ≠ .panic) : x.bind f ≠ .panic := by
  cases x with
  | ok i a => exact hf i a
  | truncated => simp [PResult.bind]
  | panic => exact absurd rfl hx

theorem pcount_ne_panic {α : Type} {p : List Nat → PResult α}
    (hp : ∀ j, p j ≠ .panic) (n : Nat) (i : List Nat) :
    pcount p n i ≠ .panic := by
  induction n generalizing i with
  | zero => simp [pcount]
  | succ n ih =>
    exact PResult.bind_ne_panic (hp i) fun j a =>
      PResult.bind_ne_panic (ih j) fun j' l => by simp

theorem authority_parse_ne_panic (i : List Nat) :
    LdapSidIdentifiedAuthority.parse i ≠ .panic :=
  PResult.bind_ne_panic (ptake_ne_panic 6 i) fun j a => by simp

theorem ldapsid_parse_ne_panic (i : List Nat) : LdapSid.parse i ≠ .panic :=
  PResult.bind_ne_panic (leN_ne_panic 1 i) fun i1 revision =>
    PResult.bind_ne_panic (leN_ne_panic 1 i1) fun i2 cnt =>
      PResult.bind_ne_panic (authority_parse_ne_panic i2) fun i3 auth =>
        PResult.bind_ne_panic (pcount_ne_panic (leN_ne_panic 4) cnt i3) fun i4 subs => by simp

theorem pcount_leN_truncated_of_short {n : Nat} {j : List Nat}
    (h : j.length < 4 * n) : pcount (leN 4) n j = .truncated := by
  induction n generalizing j with
  | zero => omega
  | succ n ih =>
    by_cases hj : j.length < 4
    · rw [show pcount (leN 4) (n + 1) j =
        (leN 4 j).bind fun i v => (pcount (leN 4) n i).bind fun i vs => .ok i (v :: vs) from rfl]
      rw [leN_truncated_of_lt hj]
      rfl
    · push_neg at hj
      obtain ⟨v, hv⟩ := leN_ok_of_le hj
      rw [show pcount (leN 4) (n + 1) j =
        (leN 4 j).bind fun i v => (pcount (leN 4) n i).bind fun i vs => .ok i (v :: vs) from rfl]
      rw [hv]
      show ((pcount (leN 4) n (j.drop 4)).bind fun i vs => .ok i (v :: vs)) = .truncated
      rw [ih (by simp; omega)]
      rfl

theorem pcond_ok_inv {α : Type} {b : Bool} {p : List Nat → PResult α}
    {i r : List Nat} {w : Option α} (h : pcond b p i = .ok r w) :
    w.isSome = b ∧
      (b = false → r = i ∧ w = none) ∧
      (b = true → ∃ v, p i = .ok r v ∧ w = some v) := by
  cases b with
  | false =>
    simp only [pcond, Bool.false_eq_true, if_false, PResult.ok.injEq] at h
    exact ⟨by simp [← h.2], fun _ => ⟨h.1.symm, h.2.symm⟩, by simp⟩
  | true =>
    simp only [pcond, if_true] at h
    obtain ⟨i1, a, hpa, hr⟩ := PResult.bind_ok h
    simp only [PResult.ok.injEq] at hr
    exact ⟨by simp [← hr.2], by simp, fun _ => ⟨a, by rw [hpa, hr.1], hr.2.symm⟩⟩

theorem objectaceflags_parse_ok_inv {i r : List Nat} {f : ObjectAceFlags}
    (h : ObjectAceFlags.parse i = .ok r f) :
    r = i.drop 4 ∧ 4 ≤ i.length ∧ f.bits < 4 := by
  obtain ⟨i1, v, hv, hm⟩ := PResult.bind_ok h
  obtain ⟨hle, hdrop⟩ := leN_ok_inv hv
  unfold ObjectAceFlags.from_bits at hm
  split at hm
  next f' heq =>
    have hv4 : v < 4 := by
      by_contra hc
      rw [if_neg hc] at heq
      exact Option.noConfusion heq
    rw [if_pos hv4, Option.some.injEq] at heq
    simp only [PResult.ok.injEq] at hm
    refine ⟨by rw [← hm.1, hdrop], hle, ?_⟩
    rw [← hm.2, ← heq]
    exact hv4
  next heq => exact absurd hm (by simp)

theorem AceFormat.parse_ok_rest {j : List Nat} {t : Nat} {r : List Nat}
    {f : AceFormat} (h : AceFormat.parse j t = .ok r f) : r = j := by
  unfold AceFormat.parse at h
  split at h
  · obtain ⟨_, _, _, hr⟩ := PResult.bind_ok h
    simp only [PResult.ok.injEq] at hr
    exact hr.1.symm
  split at h
  · obtain ⟨_, _, _, hr⟩ := PResult.bind_ok h
    simp only [PResult.ok.injEq] at hr
    exact hr.1.symm
  split at h
  · obtain ⟨_, _, _, hr⟩ := PResult.bind_ok h
    simp only [PResult.ok.injEq] at hr
    exact hr.1.symm
  split at h
  · obtain ⟨_, _, _, hr⟩ := PResult.bind_ok h
    simp only [PResult.ok.injEq] at hr
    exact hr.1.symm
  · exact absurd h (by simp)

/-! ## The canonical byte layout of spec §6, used as an encoding oracle -/

/-- Little-endian encoding of `v` on `n` bytes (spec §6 integer layout). -/
def encodeLe : Nat → Nat → List Nat
  | 0, _ => []
  | n + 1, v => v % 256 :: encodeLe n (v / 256)

theorem encodeLe_length (n v : Nat) : (encodeLe n v).length = n := by
  induction n generalizing v with
  | zero => rfl
  | succ n ih => simp [encodeLe, ih]

theorem leN_encodeLe {n v : Nat} (h : v < 2 ^ (8 * n)) (t : List Nat) :
    leN n (encodeLe n v ++ t) = .ok t v := by
  induction n generalizing v with
  | zero =>
    have : v = 0 := by simpa using h
    simp [encodeLe, leN, this]
  | succ n ih =>
    have hdiv : v / 256 < 2 ^ (8 * n) := by
      rw [Nat.div_lt_iff_lt_mul (by norm_num)]
      calc v < 2 ^ (8 * (n + 1)) := h
        _ = 2 ^ (8 * n) * 256 := by ring
    simp only [encodeLe, List.cons_append, leN, List.append_eq]
    rw [ih hdiv]
    show PResult.ok t (v % 256 + 256 * (v / 256)) = PResult.ok t v
    rw [show v % 256 + 256 * (v / 256) = v by rw [Nat.add_comm, Nat.div_add_mod]]

/-! ## The structure parsers are well-behaved -/

theorem goodParser_bind_discard {γ β : Type} (x : PResult γ) (g : γ → β) :
    GoodParser (fun i => x.bind fun _ d => .ok i (g d)) := by
  cases x with
  | ok j d => simpa [PResult.bind] using goodParser_pure (g d)
  | truncated => exact goodParser_const_fail (by simp [PResult.bind])
  | panic => exact goodParser_const_fail (by simp [PResult.bind])

theorem goodParser_LdapSidIdentifiedAuthority :
    GoodParser LdapSidIdentifiedAuthority.parse := by
  show GoodParser fun i => (ptake 6 i).bind fun i value =>
    .ok i (LdapSidIdentifiedAuthority.mk value)
  exact goodParser_bind (goodParser_ptake 6) fun a => goodParser_pure _

theorem goodParser_LdapSid : GoodParser LdapSid.parse := by
  show GoodParser fun i =>
    (leN 1 i).bind fun i revision =>
    (leN 1 i).bind fun i cnt =>
    (LdapSidIdentifiedAuthority.parse i).bind fun i auth =>
    (pcount (leN 4) cnt i).bind fun i subs =>
    .ok i (LdapSid.mk revision cnt auth subs)
  exact goodParser_bind (goodParser_leN 1) fun revision =>
    goodParser_bind (goodParser_leN 1) fun cnt =>
      goodParser_bind goodParser_LdapSidIdentifiedAuthority fun auth =>
        goodParser_bind (goodParser_pcount (goodParser_leN 4) cnt) fun subs =>
          goodParser_pure _

theorem goodParser_ObjectAceFlags : GoodParser ObjectAceFlags.parse := by
  show GoodParser fun i =>
    (leN 4 i).bind fun i v =>
      match ObjectAceFlags.from_bits v with
      | some f => .ok i f
      | none => .panic
  refine goodParser_bind (goodParser_leN 4) fun v => ?_
  cases h : ObjectAceFlags.from_bits v with
  | some f => simp only [h]; exact goodParser_pure f
  | none => simp only [h]; exact goodParser_const_fail (by simp)

theorem goodParser_AccessAllowedAce : GoodParser AccessAllowedAce.parse := by
  show GoodParser fun i =>
    (leN 4 i).bind fun i mask =>
    (LdapSid.parse i).bind fun i sid =>
    .ok i (AccessAllowedAce.mk mask sid)
  exact goodParser_bind (goodParser_leN 4) fun mask =>
    goodParser_bind goodParser_LdapSid fun sid => goodParser_pure _

theorem goodParser_AccessAllowedObjectAce :
    GoodParser AccessAllowedObjectAce.parse := by
  show GoodParser fun i =>
    (leN 4 i).bind fun i mask =>
    (ObjectAceFlags.parse i).bind fun i flags =>
    (pcond flags.objectPresent (leN 16) i).bind fun i object_type =>
    (pcond flags.inheritedObjectPresent (leN 16) i).bind fun i inherited_object_type =>
    (LdapSid.parse i).bind fun i sid =>
    .ok i (AccessAllowedObjectAce.mk mask flags object_type inherited_object_type sid)
  exact goodParser_bind (goodParser_leN 4) fun mask =>
    goodParser_bind goodParser_ObjectAceFlags fun flags =>
      goodParser_bind (goodParser_pcond (goodParser_leN 16)) fun ot =>
        goodParser_bind (goodParser_pcond (goodParser_leN 16)) fun iot =>
          goodParser_bind goodParser_LdapSid fun sid => goodParser_pure _

theorem goodParser_Ace : GoodParser Ace.parse := by
  show GoodParser fun i =>
    (leN 1 i).bind fun i ace_type =>
    (leN 1 i).bind fun i ace_flags =>
    (leN 2 i).bind fun i ace_size =>
    if ace_size < 4 then .panic
    else
      (ptake (ace_size - 4) i).bind fun i body =>
        (AceFormat.parse body ace_type).bind fun _ data =>
          .ok i (Ace.mk ace_type ace_flags ace_size data)
  refine goodParser_bind (goodParser_leN 1) fun ace_type =>
    goodParser_bind (goodParser_leN 1) fun ace_flags =>
      goodParser_bind (goodParser_leN 2) fun ace_size => ?_
  by_cases hs : ace_size < 4
  · simp only [if_pos hs]
    exact goodParser_const_fail (by simp)
  · simp only [if_neg hs]
    exact goodParser_bind (goodParser_ptake (ace_size - 4)) fun body =>
      goodParser_bind_discard _ _

theorem goodParser_Acl : GoodParser Acl.parse := by
  show GoodParser fun i =>
    (leN 1 i).bind fun i acl_revision =>
    (leN 1 i).bind fun i sbz1 =>
    (leN 2 i).bind fun i acl_size =>
    (leN 2 i).bind fun i ace_count =>
    (leN 2 i).bind fun i sbz2 =>
    (pcount Ace.parse ace_count i).bind fun i data =>
    .ok i (Acl.mk acl_revision sbz1 acl_size ace_count sbz2 data)
  exact goodParser_bind (goodParser_leN 1) fun a =>
    goodParser_bind (goodParser_leN 1) fun b =>
      goodParser_bind (goodParser_leN 2) fun c =>
        goodParser_bind (goodParser_leN 2) fun d =>
          goodParser_bind (goodParser_leN 2) fun e =>
            goodParser_bind (goodParser_pcount goodParser_Ace d) fun l =>
              goodParser_pure _

/-! ## pcount helpers for the ACL claims -/

theorem pcount_ok_length {α : Type} {p : List Nat → PResult α} {n : Nat}
    {i r : List Nat} {l : List α} (h : pcount p n i = .ok r l) :
    l.length = n := by
  induction n generalizing i r l with
  | zero =>
    simp only [pcount, PResult.ok.injEq] at h
    simp [← h.2]
  | succ n ih =>
    obtain ⟨i1, a, _, h1⟩ := PResult.bind_ok h
    obtain ⟨i2, l2, h2, h3⟩ := PResult.bind_ok h1
    simp only [PResult.ok.injEq] at h3
    rw [← h3.2]
    simp [ih h2]

/-- The ACEs of a decoded ACL are decoded in sequence: each one starts on
the remaining input where the previous one ended. -/
inductive AcesSeq : List Nat → List Ace → List Nat → Prop where
  | nil : ∀ i, AcesSeq i [] i
  | cons : ∀ i i' rest a as, Ace.parse i = .ok i' a → AcesSeq i' as rest →
      AcesSeq i (a :: as) rest

theorem pcount_acesSeq {n : Nat} {i r : List Nat} {l : List Ace}
    (h : pcount Ace.parse n i = .ok r l) : AcesSeq i l r := by
  induction n generalizing i r l with
  | zero =>
    simp only [pcount, PResult.ok.injEq] at h
    rw [← h.2, h.1]
    exact AcesSeq.nil r
  | succ n ih =>
    obtain ⟨i1, a, ha, h1⟩ := PResult.bind_ok h
    obtain ⟨i2, l2, h2, h3⟩ := PResult.bind_ok h1
    simp only [PResult.ok.injEq] at h3
    rw [← h3.2, ← h3.1]
    exact AcesSeq.cons i i1 i2 a l2 ha (ih h2)

/-! ## SID encoding oracle and round-trip -/

theorem leN_one_cons (b : Nat) (l : List Nat) : leN 1 (b :: l) = .ok l b := by
  simp [leN]

theorem ptake_append {n : Nat} {l : List Nat} (h : l.length = n) (t : List Nat) :
    ptake n (l ++ t) = .ok t l := by
  subst h
  unfold ptake
  rw [if_pos (by simp)]
  rw [List.drop_left, List.take_left]

/-- Canonical SID byte layout of spec §6 (`revision | subAuthorityCount |
identifierAuthority[6] | subAuthority[n]:u32 little-endian`). The source has
no encoder; this is the spec's test oracle for the round-trip property. -/
def encodeSid (s : LdapSid) : List Nat :=
  s.revision :: s.sub_authority_count :: s.identifier_authority.value
    ++ (s.sub_authority.map (encodeLe 4)).flatten

/-- A well-formed SID value: the count field matches the sub-authority list
and fits a byte, the authority is 6 bytes, and every stored integer fits its
declared machine width. -/
def WellFormedSid (s : LdapSid) : Prop :=
  s.revision < 256 ∧
  s.sub_authority_count = s.sub_authority.length ∧
  s.sub_authority.length ≤ 255 ∧
  s.identifier_authority.value.length = 6 ∧
  (∀ x ∈ s.identifier_authority.value, x < 256) ∧
  (∀ x ∈ s.sub_authority, x < 2 ^ 32)

theorem pcount_leN_encode {l : List Nat} (h : ∀ x ∈ l, x < 2 ^ 32)
    (t : List Nat) :
    pcount (leN 4) l.length ((l.map (encodeLe 4)).flatten ++ t) = .ok t l := by
  induction l with
  | nil => simp [pcount]
  | cons x xs ih =>
    have hx : x < 2 ^ (8 * 4) := h x (by simp)
    show (leN 4 (((encodeLe 4 x :: xs.map (encodeLe 4)).flatten) ++ t)).bind
        (fun i v => (pcount (leN 4) xs.length i).bind fun i vs => .ok i (v :: vs))
      = .ok t (x :: xs)
    rw [show ((encodeLe 4 x :: xs.map (encodeLe 4)).flatten) ++ t
        = encodeLe 4 x ++ ((xs.map (encodeLe 4)).flatten ++ t) by
      simp [List.flatten]]
    rw [leN_encodeLe hx]
    show (pcount (leN 4) xs.length ((xs.map (encodeLe 4)).flatten ++ t)).bind
        (fun i vs => .ok i (x :: vs)) = .ok t (x :: xs)
    rw [ih (fun y hy => h y (by simp [hy]))]
    rfl

/-- C7: decoding the canonical §6 encoding of a well-formed SID succeeds,
consumes exactly the `8 + 4·n` encoded bytes (any appended suffix `t` is
returned untouched as the remaining input), and returns the original SID. -/
theorem ldapsid_decode_encode (s : LdapSid) (hs : WellFormedSid s)
    (t : List Nat) : LdapSid.parse (encodeSid s ++ t) = .ok t s := by
  obtain ⟨h1, h2, h3, h4, h5, h6⟩ := hs
  cases s with
  | mk rev cnt auth subs =>
    cases auth with
    | mk authv =>
      simp only at h2 h4 h6
      subst h2
      have hauth : LdapSidIdentifiedAuthority.parse
          (authv ++ ((subs.map (encodeLe 4)).flatten ++ t))
          = .ok ((subs.map (encodeLe 4)).flatten ++ t) ⟨authv⟩ := by
        unfold LdapSidIdentifiedAuthority.parse
        rw [ptake_append h4]
        rfl
      have hsubs := pcount_leN_encode h6 t
      show LdapSid.parse ((rev :: subs.length :: authv
        ++ (subs.map (encodeLe 4)).flatten) ++ t) = _
      rw [show (rev :: subs.length :: authv ++ (subs.map (encodeLe 4)).flatten) ++ t
          = rev :: subs.length :: (authv ++ ((subs.map (encodeLe 4)).flatten ++ t)) by
        simp [List.append_assoc]]
      unfold LdapSid.parse
      rw [leN_one_cons]
      simp only [PResult.bind]
      rw [leN_one_cons]
      simp only [PResult.bind]
      rw [hauth]
      simp only [PResult.bind]
      rw [hsubs]

/-- A concrete well-formed SID (`S-1-5-32-544`, from the repository's own
test vector) used to witness the round-trip theorem. -/
def c7sid : LdapSid := ⟨1, 2, ⟨[0, 0, 0, 0, 0, 5]⟩, [32, 544]⟩

/-- Witness for C7: the round-trip theorem instantiated at `c7sid`. -/
theorem ldapsid_decode_encode_witness :
    LdapSid.parse (encodeSid c7sid ++ []) = .ok [] c7sid :=
  ldapsid_decode_encode c7sid
    ⟨by decide, by decide, by decide, by decide, by decide, by decide⟩ []

/-! ## C2: truncated buffers fail gracefully -/

/-- C2: buffers cut short fail with the truncated-input error and never
panic: (1) `LdapSid::parse` never panics on any input; (2) a buffer shorter
than the `8 + 4·count` bytes a SID requires (where `count` is the buffer's
second byte) yields the truncated-input failure; (3) a buffer cut inside the
4-byte ACE header yields the truncated-input failure; (4) an object-ACE body
with a well-formed mask and flags word whose OBJECT_PRESENT bit is set but
with fewer than 16 bytes left for the GUID yields the truncated-input
failure. -/
theorem truncated_input_fails_gracefully :
    (∀ i : List Nat, LdapSid.parse i ≠ .panic) ∧
    (∀ i : List Nat, i.length < 8 + 4 * ((i.drop 1).headD 0) →
      LdapSid.parse i = .truncated) ∧
    (∀ i : List Nat, i.length < 4 → Ace.parse i = .truncated) ∧
    (∀ (m : List Nat) (fl : Nat) (g : List Nat), m.length = 4 → fl < 4 →
      fl.testBit 0 = true → g.length < 16 →
      AccessAllowedObjectAce.parse (m ++ (encodeLe 4 fl ++ g)) = .truncated) := by
  refine ⟨ldapsid_parse_ne_panic, ?_, ?_, ?_⟩
  · intro i hlen
    match i with
    | [] => rfl
    | [b0] => rfl
    | b0 :: b1 :: rest =>
      simp only [List.drop_succ_cons, List.drop_zero, List.headD_cons,
        List.length_cons] at hlen
      unfold LdapSid.parse
      rw [leN_one_cons]
      simp only [PResult.bind]
      rw [leN_one_cons]
      simp only [PResult.bind]
      by_cases h6 : rest.length < 6
      · unfold LdapSidIdentifiedAuthority.parse ptake
        rw [if_neg (by omega)]
        rfl
      · push_neg at h6
        unfold LdapSidIdentifiedAuthority.parse ptake
        rw [if_pos h6]
        simp only [PResult.bind]
        rw [pcount_leN_truncated_of_short (by simp; omega)]
  · intro i hlen
    match i with
    | [] => rfl
    | [a] => rfl
    | [a, b] => rfl
    | [a, b, c] => rfl
    | a :: b :: c :: d :: rest => simp at hlen; omega
  · intro m fl g hm hfl hbit hg
    unfold AccessAllowedObjectAce.parse
    obtain ⟨v, hv⟩ := leN_ok_of_le (n := 4) (i := m ++ (encodeLe 4 fl ++ g)) (by simp [hm])
    rw [hv]
    simp only [PResult.bind]
    rw [show (m ++ (encodeLe 4 fl ++ g)).drop 4 = encodeLe 4 fl ++ g by
      rw [← hm, List.drop_left]]
    unfold ObjectAceFlags.parse
    rw [leN_encodeLe (by calc fl < 4 := hfl
          _ ≤ 2 ^ (8 * 4) := by norm_num)]
    simp only [PResult.bind]
    rw [show ObjectAceFlags.from_bits fl = some ⟨fl⟩ from if_pos hfl]
    simp only [PResult.bind]
    rw [show ObjectAceFlags.objectPresent ⟨fl⟩ = true from hbit]
    unfold pcond
    rw [if_pos rfl]
    rw [leN_truncated_of_lt hg]
    rfl

/-- Witness for C2: each conjunct instantiated at a concrete cut buffer —
a SID cut after 8 bytes though its count byte asks for 2 sub-authorities,
a 2-byte ACE header, and an object-ACE body whose OBJECT_PRESENT flag is
set but whose GUID is cut at 3 bytes. -/
theorem truncated_input_fails_gracefully_witness :
    LdapSid.parse [1, 2, 0, 0, 0, 0, 0, 5] ≠ .panic ∧
    LdapSid.parse [1, 2, 0, 0, 0, 0, 0, 5] = .truncated ∧
    Ace.parse [0, 18] = .truncated ∧
    AccessAllowedObjectAce.parse
      ([148, 0, 2, 0] ++ (encodeLe 4 1 ++ [1, 2, 3])) = .truncated :=
  ⟨truncated_input_fails_gracefully.1 _,
   truncated_input_fails_gracefully.2.1 _ (by decide),
   truncated_input_fails_gracefully.2.2.1 _ (by decide),
   truncated_input_fails_gracefully.2.2.2 _ 1 _ (by decide) (by decide)
     (by decide) (by decide)⟩

/-! ## C1, C3, C4: panics the spec rules out -/

/-- C1 (divergence): on the unknown ACE type `0x02`
(ACCESS_ALLOWED_COMPOUND) with body bytes `[0xAB, 0xCD]`, `AceFormat::parse`
hits its `panic!` arm instead of returning an `Unrecognized` payload that
retains the raw body bytes. -/
theorem aceformat_parse_unknown_type_panics :
    AceFormat.parse [0xAB, 0xCD] 0x02 = .panic := rfl

/-- C3 (divergence): on the 4-byte flags field `0x00000004` — a single bit
outside OBJECT_PRESENT (0x1) and INHERITED_OBJECT_PRESENT (0x2) —
`ObjectAceFlags::parse` panics (`from_bits` returns `None` and the code
`unwrap`s it) instead of succeeding with the unknown bit preserved. -/
theorem objectaceflags_parse_unknown_bit_panics :
    ObjectAceFlags.parse [4, 0, 0, 0] = .panic := rfl

/-- C4 (divergence): on an ACE whose declared size field is 3 (< 4),
`Ace::parse` evaluates `ace_size as usize - 4`, an underflowing `usize`
subtraction that aborts with a panic (under the overflow-checked build the
repository's tests use) — there is no `InvalidAceSize` failure in the
code. -/
theorem ace_parse_size_three_panics :
    Ace.parse [0, 0, 3, 0] = .panic := rfl

/-! ## C5: object-ACE body layout -/

/-- C5: for every successfully decoded object-type ACE payload, the
`objectType` GUID is present iff bit 0 of the flags field is set and
`inheritedObjectType` is present iff bit 1 is set; the body layout is fixed:
the mask is the first 4 bytes, the flags word the next 4, and the SID starts
at offset `8 + 16·[bit0] + 16·[bit1]` — an absent GUID occupies zero bytes,
shifting the SID's start earlier. -/
theorem object_ace_layout (i rest : List Nat) (v : AccessAllowedObjectAce)
    (h : AccessAllowedObjectAce.parse i = .ok rest v) :
    v.object_type.isSome = v.flags.bits.testBit 0 ∧
    v.inherited_object_type.isSome = v.flags.bits.testBit 1 ∧
    leN 4 i = .ok (i.drop 4) v.mask ∧
    ObjectAceFlags.parse (i.drop 4) = .ok (i.drop 8) v.flags ∧
    LdapSid.parse (i.drop (8 + (if v.flags.bits.testBit 0 then 16 else 0)
      + (if v.flags.bits.testBit 1 then 16 else 0))) = .ok rest v.sid := by
  obtain ⟨i1, mask, h1, hb⟩ := PResult.bind_ok h
  obtain ⟨i2, flags, h3, hb⟩ := PResult.bind_ok hb
  obtain ⟨i3, ot, h5, hb⟩ := PResult.bind_ok hb
  obtain ⟨i4, iot, h7, hb⟩ := PResult.bind_ok hb
  obtain ⟨i5, sid, h9, hb⟩ := PResult.bind_ok hb
  simp only [PResult.ok.injEq] at hb
  obtain ⟨hrest, hval⟩ := hb
  obtain ⟨hle1, hdrop1⟩ := leN_ok_inv h1
  subst hdrop1
  obtain ⟨hdrop2, _, _⟩ := objectaceflags_parse_ok_inv h3
  rw [List.drop_drop] at hdrop2
  norm_num at hdrop2
  subst hdrop2
  obtain ⟨hsome5, hfalse5, htrue5⟩ := pcond_ok_inv h5
  obtain ⟨hsome7, hfalse7, htrue7⟩ := pcond_ok_inv h7
  have hi3 : i3 = (i.drop 8).drop (if flags.objectPresent then 16 else 0) := by
    cases hopb : flags.objectPresent with
    | false =>
      obtain ⟨h', _⟩ := hfalse5 hopb
      simp [h']
    | true =>
      obtain ⟨g, hg, _⟩ := htrue5 hopb
      obtain ⟨_, hd⟩ := leN_ok_inv hg
      simp [hd]
  have hi4 : i4 = i3.drop (if flags.inheritedObjectPresent then 16 else 0) := by
    cases hopb : flags.inheritedObjectPresent with
    | false =>
      obtain ⟨h', _⟩ := hfalse7 hopb
      simp [h']
    | true =>
      obtain ⟨g, hg, _⟩ := htrue7 hopb
      obtain ⟨_, hd⟩ := leN_ok_inv hg
      simp [hd]
  subst hval
  subst hrest
  refine ⟨by rw [hsome5]; rfl, by rw [hsome7]; rfl, h1, h3, ?_⟩
  show LdapSid.parse (i.drop (8 + (if flags.objectPresent then 16 else 0)
    + (if flags.inheritedObjectPresent then 16 else 0))) = .ok i5 sid
  rw [hi4, hi3] at h9
  rw [List.drop_drop, List.drop_drop, ← Nat.add_assoc] at h9
  exact h9

/-- The object-ACE body from the repository's `test_ace` vector: mask,
flags `0x00000002` (INHERITED_OBJECT_PRESENT only), one GUID, then the
SID. -/
def c5body : List Nat :=
  [0x94, 0x00, 0x02, 0x00,
   0x02, 0x00, 0x00, 0x00,
   0xba, 0x7a, 0x96, 0xbf, 0xe6, 0x0d, 0xd0, 0x11,
   0xa2, 0x85, 0x00, 0xaa, 0x00, 0x30, 0x49, 0xe2,
   0x01, 0x02, 0x00, 0x00, 0x00, 0x00, 0x00, 0x05,
   0x20, 0x00, 0x00, 0x00, 0x2a, 0x02, 0x00, 0x00]

/-- The decoded payload of `c5body`. -/
def c5val : AccessAllowedObjectAce :=
  ⟨131220, ⟨2⟩, none, some 300785538326338087707350435788934773434,
   ⟨1, 2, ⟨[0, 0, 0, 0, 0, 5]⟩, [32, 554]⟩⟩

/-- Witness for C5: the layout theorem instantiated at the repository's own
object-ACE test vector. -/
theorem object_ace_layout_witness :
    c5val.object_type.isSome = c5val.flags.bits.testBit 0 ∧
    c5val.inherited_object_type.isSome = c5val.flags.bits.testBit 1 ∧
    leN 4 c5body = .ok (c5body.drop 4) c5val.mask ∧
    ObjectAceFlags.parse (c5body.drop 4) = .ok (c5body.drop 8) c5val.flags ∧
    LdapSid.parse (c5body.drop (8 + (if c5val.flags.bits.testBit 0 then 16 else 0)
      + (if c5val.flags.bits.testBit 1 then 16 else 0))) = .ok [] c5val.sid :=
  object_ace_layout c5body [] c5val (by decide)

/-! ## Inversion of a successful ACE parse (shared by several claims) -/

theorem ace_parse_ok_inv {i rest : List Nat} {ace : Ace}
    (h : Ace.parse i = .ok rest ace) :
    4 ≤ ace.ace_size ∧ ace.ace_size ≤ i.length ∧ rest = i.drop ace.ace_size ∧
    AceFormat.parse ((i.drop 4).take (ace.ace_size - 4)) ace.ace_type
      = .ok ((i.drop 4).take (ace.ace_size - 4)) ace.data := by
  obtain ⟨i1, t, h1, hb⟩ := PResult.bind_ok h
  obtain ⟨i2, f, h2, hb⟩ := PResult.bind_ok hb
  obtain ⟨i3, s, h3, hb⟩ := PResult.bind_ok hb
  by_cases hs : s < 4
  · rw [if_pos hs] at hb
    exact absurd hb (by simp)
  · rw [if_neg hs] at hb
    obtain ⟨i4, body, h4, hb⟩ := PResult.bind_ok hb
    obtain ⟨i5, d, h5, hb⟩ := PResult.bind_ok hb
    simp only [PResult.ok.injEq] at hb
    obtain ⟨hrest, hace⟩ := hb
    obtain ⟨hl1, hd1⟩ := leN_ok_inv h1
    obtain ⟨hl2, hd2⟩ := leN_ok_inv h2
    obtain ⟨hl3, hd3⟩ := leN_ok_inv h3
    subst hd1
    subst hd2
    subst hd3
    have hi3 : List.drop 2 (List.drop 1 (List.drop 1 i)) = List.drop 4 i := by
      simp [List.drop_drop]
    rw [hi3] at h4
    obtain ⟨hle4, hd4, hbody⟩ := ptake_ok_inv h4
    have hrest5 := AceFormat.parse_ok_rest h5
    subst hrest5
    subst hbody
    subst hace
    subst hrest
    simp only [List.length_drop] at hl2 hl3 hle4
    push_neg at hs
    refine ⟨hs, ?_, ?_, h5⟩
    · show s ≤ i.length
      omega
    · show i4 = List.drop s i
      rw [hd4, List.drop_drop]
      congr 1
      omega

/-- Inversion of `AceFormat::parse` on the two simple-access types: the
payload is an `AceAllowed` decoded from the body by
`AccessAllowedAce::parse`. -/
theorem AceFormat.parse_allowed_inv {j : List Nat} {t : Nat} {r : List Nat}
    {f : AceFormat}
    (ht : t = ACCESS_ALLOWED_ACE_TYPE ∨ t = ACCESS_DENIED_ACE_TYPE)
    (h : AceFormat.parse j t = .ok r f) :
    ∃ v r', AccessAllowedAce.parse j = .ok r' v ∧ f = .AceAllowed v := by
  unfold AceFormat.parse at h
  rcases ht with ht | ht
  · subst ht
    rw [if_pos rfl] at h
    obtain ⟨i', a, ha, hr⟩ := PResult.bind_ok h
    simp only [PResult.ok.injEq] at hr
    exact ⟨a, i', ha, hr.2.symm⟩
  · subst ht
    rw [if_neg (by decide), if_pos rfl] at h
    obtain ⟨i', a, ha, hr⟩ := PResult.bind_ok h
    simp only [PResult.ok.injEq] at hr
    exact ⟨a, i', ha, hr.2.symm⟩

theorem accessallowedace_parse_ok_inv {j r : List Nat} {v : AccessAllowedAce}
    (h : AccessAllowedAce.parse j = .ok r v) :
    leN 4 j = .ok (j.drop 4) v.mask ∧ LdapSid.parse (j.drop 4) = .ok r v.sid := by
  obtain ⟨j1, mask, h1, hb⟩ := PResult.bind_ok h
  obtain ⟨j2, sid, h2, hb⟩ := PResult.bind_ok hb
  simp only [PResult.ok.injEq] at hb
  obtain ⟨hr, hv⟩ := hb
  obtain ⟨_, hd⟩ := leN_ok_inv h1
  subst hd
  subst hv
  subst hr
  exact ⟨h1, h2⟩

/-! ## C8: an ACE consumes exactly its declared size and the payload sees
only the sliced body -/

/-- C8: whenever `Ace::parse` succeeds, the declared size is at least 4 and
at most the input length, exactly `ace_size` bytes are consumed (the
returned position is immediately after the ACE), and the payload decoder ran
on precisely the `ace_size - 4` sliced body bytes — so a malformed body can
never read past the declared ACE boundary into a sibling ACE. -/
theorem ace_declared_size_frame (i rest : List Nat) (ace : Ace)
    (h : Ace.parse i = .ok rest ace) :
    4 ≤ ace.ace_size ∧ ace.ace_size ≤ i.length ∧ rest = i.drop ace.ace_size ∧
    AceFormat.parse ((i.drop 4).take (ace.ace_size - 4)) ace.ace_type
      = .ok ((i.drop 4).take (ace.ace_size - 4)) ace.data :=
  ace_parse_ok_inv h

/-- The repository's `test_ace` simple-ACE vector. -/
def c8input : List Nat :=
  [0x00, 0x12, 0x18, 0x00,
   0xbd, 0x01, 0x0f, 0x00,
   0x01, 0x02, 0x00, 0x00, 0x00, 0x00, 0x00, 0x05,
   0x20, 0x00, 0x00, 0x00, 0x20, 0x02, 0x00, 0x00]

/-- The decoded ACE of `c8input`. -/
def c8ace : Ace :=
  ⟨0, 0x12, 24, .AceAllowed ⟨983485, ⟨1, 2, ⟨[0, 0, 0, 0, 0, 5]⟩, [32, 544]⟩⟩⟩

/-- Witness for C8: the frame theorem at the repository's test vector. -/
theorem ace_declared_size_frame_witness :
    4 ≤ c8ace.ace_size ∧ c8ace.ace_size ≤ c8input.length ∧
    ([] : List Nat) = c8input.drop c8ace.ace_size ∧
    AceFormat.parse ((c8input.drop 4).take (c8ace.ace_size - 4)) c8ace.ace_type
      = .ok ((c8input.drop 4).take (c8ace.ace_size - 4)) c8ace.data :=
  ace_declared_size_frame c8input [] c8ace (by decide)

/-! ## C9: simple-ACE body = mask then SID; the SID need not reach the end
of the body -/

/-- A simple ACE whose declared size (0x1C = 28) leaves 4 leftover bytes
after the mask and the 16-byte SID: the decoder accepts it and silently
ignores the leftover. -/
def c9input : List Nat :=
  [0x00, 0x00, 0x1C, 0x00,
   0xbd, 0x01, 0x0f, 0x00,
   0x01, 0x02, 0x00, 0x00, 0x00, 0x00, 0x00, 0x05,
   0x20, 0x00, 0x00, 0x00, 0x20, 0x02, 0x00, 0x00,
   0xAA, 0xBB, 0xCC, 0xDD]

/-- The SID decoded from `c9input`. -/
def c9sid : LdapSid := ⟨1, 2, ⟨[0, 0, 0, 0, 0, 5]⟩, [32, 544]⟩

/-- The ACE decoded from `c9input`. -/
def c9ace : Ace := ⟨0, 0, 28, .AceAllowed ⟨983485, c9sid⟩⟩

/-- C9 counterexample: `Ace::parse` accepts `c9input` (type ACCESS_ALLOWED)
although the mask's 4 bytes plus the SID's `8 + 4·subAuthorityCount` bytes
do not extend to the end of the `ace_size - 4` body — 4 trailing body bytes
are left over and dropped, contradicting the claim that the SID always
extends exactly to the end of the body. -/
theorem simple_ace_leftover_counterexample :
    Ace.parse c9input = .ok [] c9ace ∧
    AceFormat.get_sid c9ace.data = some c9sid ∧
    4 + (8 + 4 * c9sid.sub_authority_count) ≠ c9ace.ace_size - 4 := by
  refine ⟨by decide, by decide, by decide⟩

/-- C9 amended: for every ACE of type ACCESS_ALLOWED or ACCESS_DENIED, the
body is decoded as a 4-byte mask followed by a SID starting at body offset
4; the SID's extent is fixed by its own subAuthorityCount, and any body
bytes after it are ignored (they are not required to reach the body's
end). -/
theorem simple_ace_body_layout (i rest : List Nat) (ace : Ace)
    (h : Ace.parse i = .ok rest ace)
    (ht : ace.ace_type = ACCESS_ALLOWED_ACE_TYPE ∨
      ace.ace_type = ACCESS_DENIED_ACE_TYPE) :
    ∃ v r, ace.data = .AceAllowed v ∧
      AccessAllowedAce.parse ((i.drop 4).take (ace.ace_size - 4)) = .ok r v ∧
      leN 4 ((i.drop 4).take (ace.ace_size - 4))
        = .ok (((i.drop 4).take (ace.ace_size - 4)).drop 4) v.mask ∧
      LdapSid.parse (((i.drop 4).take (ace.ace_size - 4)).drop 4)
        = .ok r v.sid := by
  obtain ⟨hs4, hsle, hrest, hfmt⟩ := ace_parse_ok_inv h
  obtain ⟨v, r', hparse, hdata⟩ := AceFormat.parse_allowed_inv ht hfmt
  obtain ⟨hmask, hsid⟩ := accessallowedace_parse_ok_inv hparse
  exact ⟨v, r', hdata, hparse, hmask, hsid⟩

/-- Witness for the amended C9, at the leftover-bytes input `c9input`. -/
theorem simple_ace_body_layout_witness :
    ∃ v r, c9ace.data = .AceAllowed v ∧
      AccessAllowedAce.parse ((c9input.drop 4).take (c9ace.ace_size - 4)) = .ok r v ∧
      leN 4 ((c9input.drop 4).take (c9ace.ace_size - 4))
        = .ok (((c9input.drop 4).take (c9ace.ace_size - 4)).drop 4) v.mask ∧
      LdapSid.parse (((c9input.drop 4).take (c9ace.ace_size - 4)).drop 4)
        = .ok r v.sid :=
  simple_ace_body_layout c9input [] c9ace (by decide) (Or.inl (by decide))

/-! ## C6: ACL decoding — ACE count, sequencing, and truncation -/

/-- C6: whenever `Acl::parse` succeeds, the decoded ACE list's length equals
the `ace_count` field read from the 8-byte header, and the ACEs were decoded
in sequence starting right after the header, each one starting where the
previous one ended (`AcesSeq`); and when a successful, fully-consuming ACL
buffer is cut short anywhere, the decode fails with the truncated-input
error. -/
theorem acl_count_seq_truncation :
    (∀ i rest acl, Acl.parse i = .ok rest acl →
      acl.data.length = acl.ace_count ∧ AcesSeq (i.drop 8) acl.data rest) ∧
    (∀ i acl, Acl.parse i = .ok [] acl →
      ∀ k, k < i.length → Acl.parse (i.take k) = .truncated) := by
  constructor
  · intro i rest acl h
    obtain ⟨i1, a, h1, hb⟩ := PResult.bind_ok h
    obtain ⟨i2, b, h2, hb⟩ := PResult.bind_ok hb
    obtain ⟨i3, c, h3, hb⟩ := PResult.bind_ok hb
    obtain ⟨i4, d, h4, hb⟩ := PResult.bind_ok hb
    obtain ⟨i5, e, h5, hb⟩ := PResult.bind_ok hb
    obtain ⟨i6, l, h6, hb⟩ := PResult.bind_ok hb
    simp only [PResult.ok.injEq] at hb
    obtain ⟨hrest, hacl⟩ := hb
    obtain ⟨_, hd1⟩ := leN_ok_inv h1
    obtain ⟨_, hd2⟩ := leN_ok_inv h2
    obtain ⟨_, hd3⟩ := leN_ok_inv h3
    obtain ⟨_, hd4⟩ := leN_ok_inv h4
    obtain ⟨_, hd5⟩ := leN_ok_inv h5
    subst hd1
    subst hd2
    subst hd3
    subst hd4
    subst hd5
    have hi5 : List.drop 2 (List.drop 2 (List.drop 2 (List.drop 1 (List.drop 1 i))))
        = List.drop 8 i := by
      simp [List.drop_drop]
    rw [hi5] at h6
    subst hacl
    subst hrest
    exact ⟨pcount_ok_length h6, pcount_acesSeq h6⟩
  · intro i acl h k hk
    obtain ⟨c, hc, hr, _, htr⟩ := goodParser_Acl i [] acl h
    have hcl : c = i.length := by
      have hlen := congrArg List.length hr
      simp at hlen
      omega
    exact htr k (by omega)

/-- A 32-byte ACL holding exactly one 24-byte simple ACE. -/
def c6input : List Nat :=
  [0x02, 0x00, 0x20, 0x00, 0x01, 0x00, 0x00, 0x00,
   0x00, 0x12, 0x18, 0x00,
   0xbd, 0x01, 0x0f, 0x00,
   0x01, 0x02, 0x00, 0x00, 0x00, 0x00, 0x00, 0x05,
   0x20, 0x00, 0x00, 0x00, 0x20, 0x02, 0x00, 0x00]

/-- The decoded ACL of `c6input`. -/
def c6acl : Acl :=
  ⟨2, 0, 32, 1, 0,
   [⟨0, 0x12, 24, .AceAllowed ⟨983485, ⟨1, 2, ⟨[0, 0, 0, 0, 0, 5]⟩, [32, 544]⟩⟩⟩]⟩

/-- Witness for C6: count, sequencing and cut-buffer truncation at a
concrete one-ACE ACL (cut after 20 of its 32 bytes). -/
theorem acl_count_seq_truncation_witness :
    c6acl.data.length = c6acl.ace_count ∧ AcesSeq (c6input.drop 8) c6acl.data [] ∧
    Acl.parse (c6input.take 20) = .truncated :=
  ⟨(acl_count_seq_truncation.1 c6input [] c6acl (by decide)).1,
   (acl_count_seq_truncation.1 c6input [] c6acl (by decide)).2,
   acl_count_seq_truncation.2 c6input c6acl (by decide) 20 (by decide)⟩

/-! ## C10: a parsed payload is never `Empty`; its mask and SID accessors
always answer -/

/-- C10: `AceFormat::parse` never returns the `Empty` variant on success,
and for the payload of every ACE produced by a successful `Ace::parse` the
accessors `get_mask` and `get_sid` return `Some`. -/
theorem aceformat_parse_never_empty :
    (∀ (j : List Nat) (t : Nat) (r : List Nat) (f : AceFormat),
      AceFormat.parse j t = .ok r f → f ≠ .Empty) ∧
    (∀ (i rest : List Nat) (ace : Ace), Ace.parse i = .ok rest ace →
      (AceFormat.get_mask ace.data).isSome = true ∧
      (AceFormat.get_sid ace.data).isSome = true) := by
  have hne : ∀ (j : List Nat) (t : Nat) (r : List Nat) (f : AceFormat),
      AceFormat.parse j t = .ok r f → f ≠ .Empty := by
    intro j t r f h
    unfold AceFormat.parse at h
    split at h
    · obtain ⟨_, a, _, hr⟩ := PResult.bind_ok h
      simp only [PResult.ok.injEq] at hr
      rw [← hr.2]
      simp
    split at h
    · obtain ⟨_, a, _, hr⟩ := PResult.bind_ok h
      simp only [PResult.ok.injEq] at hr
      rw [← hr.2]
      simp
    split at h
    · obtain ⟨_, a, _, hr⟩ := PResult.bind_ok h
      simp only [PResult.ok.injEq] at hr
      rw [← hr.2]
      simp
    split at h
    · obtain ⟨_, a, _, hr⟩ := PResult.bind_ok h
      simp only [PResult.ok.injEq] at hr
      rw [← hr.2]
      simp
    · exact absurd h (by simp)
  refine ⟨hne, fun i rest ace h => ?_⟩
  obtain ⟨_, _, _, hfmt⟩ := ace_parse_ok_inv h
  have hd := hne _ _ _ _ hfmt
  cases hdata : ace.data with
  | AceAllowed v => simp [AceFormat.get_mask, AceFormat.get_sid]
  | AceObjectAllowed v => simp [AceFormat.get_mask, AceFormat.get_sid]
  | Empty => exact absurd hdata hd

/-- The body bytes of the repository's simple-ACE test vector. -/
def c10body : List Nat :=
  [0xbd, 0x01, 0x0f, 0x00,
   0x01, 0x02, 0x00, 0x00, 0x00, 0x00, 0x00, 0x05,
   0x20, 0x00, 0x00, 0x00, 0x20, 0x02, 0x00, 0x00]

/-- The full simple-ACE test vector and its decoded ACE. -/
def c10input : List Nat := [0x00, 0x12, 0x18, 0x00] ++ c10body

/-- The ACE decoded from `c10input`. -/
def c10ace : Ace :=
  ⟨0, 0x12, 24, .AceAllowed ⟨983485, ⟨1, 2, ⟨[0, 0, 0, 0, 0, 5]⟩, [32, 544]⟩⟩⟩

/-- Witness for C10 at the repository's test vector. -/
theorem aceformat_parse_never_empty_witness :
    c10ace.data ≠ .Empty ∧
    (AceFormat.get_mask c10ace.data).isSome = true ∧
    (AceFormat.get_sid c10ace.data).isSome = true :=
  ⟨aceformat_parse_never_empty.1 c10body 0 c10body c10ace.data (by decide),
   (aceformat_parse_never_empty.2 c10input [] c10ace (by decide)).1,
   (aceformat_parse_never_empty.2 c10input [] c10ace (by decide)).2⟩

end SecDesc
